import Mathlib

/-!
Verification of the cairo-hints oracle runtime: a shallow embedding of the
protobuf <-> field-element codec (`cairo-proto-serde/src/lib.rs`), the cheat-code
interceptor memory discipline (`cairo-oracle-hint-processor/src/rpc_hint_processor.rs`),
the polling loop, the test-runner pass/fail logic
(`cairo-lang-hints-test-runner/src/lib.rs`) and the proto type mapping
(`cairo-proto-build/src/code_generator.rs`), together with proofs and
refutations of the specified properties.

Field elements (`Felt252`) are modelled as natural numbers holding their
canonical value in `[0, P)` where `P` is the STARK prime; `to_bigint` on a
felt returns exactly this canonical nonnegative value, and `Felt252::from`
of a signed integer canonicalises modulo `P`.  Rust panics and fallible
conversions are modelled with `Option`.
-/

/-- The STARK prime `P = 2^251 + 17 * 2^192 + 1`, the modulus of `Felt252`. -/
def STARK_PRIME : Nat :=
  3618502788666131213697322783095070105623107215331596699973092056135872020481

/-- Sanity: the prime literal is `2^251 + 17 * 2^192 + 1`. -/
theorem STARK_PRIME_eq : STARK_PRIME = 2 ^ 251 + 17 * 2 ^ 192 + 1 := by decide

/-- `Felt252::from(u : u64/u32/bool-carrier)`: canonical value of a nonnegative
integer (reduction modulo the prime; a no-op for values below `P`). -/
def feltOfNat (n : Nat) : Nat := n % STARK_PRIME

/-- `Felt252::from(i : i64)`: canonicalisation of a signed integer into the
prime field (negative values map to `P - |i|`). -/
def feltOfInt (i : Int) : Nat := (i % (STARK_PRIME : Int)).toNat

/-- Big-endian byte-slice to integer, as in `Felt252::from_bytes_be_slice`
before modular reduction. -/
def beBytesToNat (l : List Nat) : Nat := l.foldl (fun acc b => acc * 256 + b) 0

/-- The first `n` big-endian base-256 digits of `v`, least-significant last:
`natToBeBytes 32 v` is `Felt252::to_bytes_be` of a canonical value `v`. -/
def natToBeBytes : Nat → Nat → List Nat
  | 0, _ => []
  | n + 1, v => natToBeBytes n (v / 256) ++ [v % 256]

/-- `slice::chunks(31)`: split a list into consecutive chunks of 31 elements,
the last chunk possibly shorter (and never empty). -/
def chunks31 : List Nat → List (List Nat)
  | [] => []
  | a :: rest => ((a :: rest).take 31) :: chunks31 ((a :: rest).drop 31)
  termination_by l => l.length
  decreasing_by simp [List.length_drop]; omega

/-- Whether a byte is a UTF-8 continuation byte (`0x80..=0xBF`). -/
def isUtf8Cont (b : Nat) : Bool := 0x80 ≤ b && b ≤ 0xBF

/-- UTF-8 validity of a byte sequence, as checked by Rust's
`String::from_utf8` (rejecting overlong encodings, surrogates and
code points above `U+10FFFF`). -/
def isValidUtf8 : List Nat → Bool
  | [] => true
  | b :: rest =>
    if b ≤ 0x7F then isValidUtf8 rest
    else if 0xC2 ≤ b && b ≤ 0xDF then
      match rest with
      | b1 :: rest2 => isUtf8Cont b1 && isValidUtf8 rest2
      | [] => false
    else if b = 0xE0 then
      match rest with
      | b1 :: b2 :: rest3 =>
        (0xA0 ≤ b1 && b1 ≤ 0xBF) && isUtf8Cont b2 && isValidUtf8 rest3
      | _ => false
    else if (0xE1 ≤ b && b ≤ 0xEC) || b = 0xEE || b = 0xEF then
      match rest with
      | b1 :: b2 :: rest3 => isUtf8Cont b1 && isUtf8Cont b2 && isValidUtf8 rest3
      | _ => false
    else if b = 0xED then
      match rest with
      | b1 :: b2 :: rest3 =>
        (0x80 ≤ b1 && b1 ≤ 0x9F) && isUtf8Cont b2 && isValidUtf8 rest3
      | _ => false
    else if b = 0xF0 then
      match rest with
      | b1 :: b2 :: b3 :: rest4 =>
        (0x90 ≤ b1 && b1 ≤ 0xBF) && isUtf8Cont b2 && isUtf8Cont b3 && isValidUtf8 rest4
      | _ => false
    else if 0xF1 ≤ b && b ≤ 0xF3 then
      match rest with
      | b1 :: b2 :: b3 :: rest4 =>
        isUtf8Cont b1 && isUtf8Cont b2 && isUtf8Cont b3 && isValidUtf8 rest4
      | _ => false
    else if b = 0xF4 then
      match rest with
      | b1 :: b2 :: b3 :: rest4 =>
        (0x80 ≤ b1 && b1 ≤ 0x8F) && isUtf8Cont b2 && isUtf8Cont b3 && isValidUtf8 rest4
      | _ => false
    else false

/-- A hexadecimal digit of a nibble, lowercase, as produced by
`BigInt::to_str_radix(16)`. -/
def hexDigit (n : Nat) : Nat := if n < 10 then 48 + n else 87 + n

/-- Lowercase hexadecimal digits (as ASCII bytes) of `n`, no leading zeros
beyond a single `0`, as produced by `BigInt::to_str_radix(16)`. -/
def natToHexBytes (n : Nat) : List Nat :=
  if _h : n = 0 then [48]
  else if _h2 : n < 16 then [hexDigit n]
  else natToHexBytes (n / 16) ++ [hexDigit (n % 16)]
  termination_by n
  decreasing_by omega

/-- Value of an ASCII hex digit, accepting both cases; `none` otherwise. -/
def hexDigitVal (b : Nat) : Option Nat :=
  if 48 ≤ b && b ≤ 57 then some (b - 48)
  else if 97 ≤ b && b ≤ 102 then some (b - 87)
  else if 65 ≤ b && b ≤ 70 then some (b - 55)
  else none

/-- Value of an ASCII decimal digit; `none` otherwise. -/
def decDigitVal (b : Nat) : Option Nat :=
  if 48 ≤ b && b ≤ 57 then some (b - 48) else none

/-- Fold a digit list into a number in the given base; `none` on a bad digit. -/
def parseDigits (digitVal : Nat → Option Nat) (base : Nat) (l : List Nat) :
    Option Nat :=
  l.foldl (fun acc b => acc.bind fun a => (digitVal b).map fun d => a * base + d)
    (some 0)

/-- `Felt252::from_hex` on a `"0x…"` ASCII byte string: parse the digits after
the `0x` prefix and reduce modulo the prime; `none` on a malformed string
(models the library parser; callers always pass a `0x`-prefixed string). -/
def feltFromHexBytes (l : List Nat) : Option Nat :=
  match l with
  | 48 :: 120 :: digits =>
    if digits.isEmpty then none
    else (parseDigits hexDigitVal 16 digits).map feltOfNat
  | _ => none

/-- `Felt252::from_dec_str` on an ASCII byte string: parse decimal digits and
reduce modulo the prime; `none` on a malformed string. -/
def feltFromDecBytes (l : List Nat) : Option Nat :=
  if l.isEmpty then none else (parseDigits decDigitVal 10 l).map feltOfNat

/-- JSON values (`serde_json::Value`).  Numbers carry a mathematical integer
(serde_json stores `u64` or `i64`; both embed in `Int`); strings carry their
UTF-8 bytes (Rust strings are byte sequences guaranteed valid UTF-8). -/
inductive Json where
  | null : Json
  | bool (b : Bool) : Json
  | num (n : Int) : Json
  | str (bytes : List Nat) : Json
  | arr (elems : List Json) : Json
  | obj (fields : List (String × Json)) : Json
  deriving Repr, BEq

/-- `Value::as_u64`: the number when it is in `u64` range. -/
def Json.asU64 : Json → Option Nat
  | .num n => if 0 ≤ n ∧ n < 2 ^ 64 then some n.toNat else none
  | _ => none

/-- `Value::as_i64`: the number when it is in `i64` range. -/
def Json.asI64 : Json → Option Int
  | .num n => if -(2 ^ 63) ≤ n ∧ n < 2 ^ 63 then some n else none
  | _ => none

/-- `Value::as_bool`. -/
def Json.asBool : Json → Option Bool
  | .bool b => some b
  | _ => none

/-- `Value::as_str` (the string's bytes, as `str::as_bytes`). -/
def Json.asStr : Json → Option (List Nat)
  | .str s => some s
  | _ => none

/-- `Value::as_array`. -/
def Json.asArr : Json → Option (List Json)
  | .arr l => some l
  | _ => none

/-- `Value::as_object`. -/
def Json.asObj : Json → Option (List (String × Json))
  | .obj kvs => some kvs
  | _ => none

/-- `Value::is_object`. -/
def Json.isObject : Json → Bool
  | .obj _ => true
  | _ => false

/-- `Map::get` on a JSON object (keys are unique in a `serde_json::Map`). -/
def jsonGet (kvs : List (String × Json)) (k : String) : Option Json :=
  (kvs.find? (fun kv => kv.1 = k)).map (·.2)

/-- `value == 0` via serde_json's `PartialEq<i64>` for `Value`: true exactly
for the JSON number `0`. -/
def jsonEqZero : Json → Bool
  | .num n => n == 0
  | _ => false

/-- `str::trim_start_matches("felt252_")` on a character list: strip every
leading repetition of the pattern. -/
def trimFelt252Chars : List Char → List Char
  | 'f' :: 'e' :: 'l' :: 't' :: '2' :: '5' :: '2' :: '_' :: rest =>
    trimFelt252Chars rest
  | l => l

/-- `str::trim_start_matches("felt252_")` on a string. -/
def trimFelt252 (s : String) : String := ⟨trimFelt252Chars s.data⟩

/-- Primitive types supported by both Protocol Buffers and Cairo
(`configuration.rs`; the `FELT252` variant is required and used throughout
`cairo-proto-serde/src/lib.rs`). -/
inductive PrimitiveType where
  | U64 | U32 | I32 | I64 | BOOL | BYTEARRAY | FELT252
  deriving Repr, BEq, DecidableEq

/-- The types allowed in protocol buffers (`FieldType` in `configuration.rs`). -/
inductive FieldType where
  | primitive (p : PrimitiveType) : FieldType
  | message (name : String) : FieldType
  | enumeration (name : String) : FieldType
  | option (inner : FieldType) : FieldType
  | array (inner : FieldType) : FieldType
  deriving Repr, BEq

/-- A message field (`Field` in `configuration.rs`; named `ProtoField` here
because `Field` collides with Mathlib's algebraic `Field`). -/
structure ProtoField where
  name : String
  ty : FieldType
  deriving Repr, BEq

/-- An enum variant mapping (`Mapping` in `configuration.rs`). -/
structure Mapping where
  name : String
  nb : Int
  deriving Repr, BEq

/-- Inputs and outputs of a service method (`MethodDeclaration`). -/
structure MethodDeclaration where
  input : FieldType
  output : FieldType
  deriving Repr, BEq

/-- An RPC service: a map from method name to declaration (`Service`). -/
structure Service where
  methods : List (String × MethodDeclaration)
  deriving Repr, BEq

/-- Async polling parameters (`PollingConfig`); all fields are `u64` seconds
or counts. -/
structure PollingConfig where
  max_attempts : Nat
  polling_interval : Nat
  request_timeout : Nat
  overall_timeout : Nat
  deriving Repr, BEq, DecidableEq

/-- Per-selector server endpoint configuration (`ServerConfig`). -/
structure ServerConfig where
  server_url : String
  polling : Option Bool
  polling_config : Option PollingConfig
  deriving Repr, BEq

/-- The schema plus server registry (`Configuration` in `configuration.rs`):
maps are modelled as association lists with unique keys (`BTreeMap`/`HashMap`). -/
structure Configuration where
  enums : List (String × List Mapping)
  messages : List (String × List ProtoField)
  services : List (String × Service)
  servers_config : List (String × ServerConfig)
  deriving Repr

/-- `BTreeMap::get` on an association list. -/
def mapGet {α : Type} (m : List (String × α)) (k : String) : Option α :=
  (m.find? (fun kv => kv.1 = k)).map (·.2)

/-- `serialize_primitive` (`cairo-proto-serde/src/lib.rs:10-67`): one JSON
value of a primitive type to its felt sequence; `none` models the Rust
panics (`expect`/`unwrap`/type mismatch). -/
def serialize_primitive (ty : PrimitiveType) (value : Json) : Option (List Nat) :=
  match ty with
  | .FELT252 =>
    match value with
    | .str s =>
      match s with
      | 48 :: 120 :: _ => (feltFromHexBytes s).map (fun f => [f])
      | _ => (feltFromDecBytes s).map (fun f => [f])
    | _ => none
  | .U64 => (value.asU64).map (fun n => [feltOfNat n])
  | .U32 => (value.asU64).map (fun n => [feltOfNat n])
  | .I32 => (value.asI64).map (fun i => [feltOfInt i])
  | .I64 => (value.asI64).map (fun i => [feltOfInt i])
  | .BYTEARRAY =>
    match value.asStr with
    | none => none
    | some bytes =>
      if bytes.length < 2 ^ 32 then
        let total_length := bytes.length / 31
        let words := (chunks31 bytes).map (fun c => feltOfNat (beBytesToNat c))
        let last_row_length := bytes.length % 31
        some (feltOfNat total_length :: words ++
          (if last_row_length = 0 then [feltOfNat 0] else []) ++
          [feltOfNat last_row_length])
      else none
  | .BOOL => (value.asBool).map (fun b => [if b then 1 else 0])

/-- `deserialize_primitive` (`cairo-proto-serde/src/lib.rs:69-116`): reads a
prefix of the felt slice, returning the JSON value and the advanced slice;
`none` models the Rust panics (out-of-range `try_from`, slice indexing out of
bounds, invalid UTF-8, bad boolean). -/
def deserialize_primitive (ty : PrimitiveType) (value : List Nat) :
    Option (Json × List Nat) :=
  match value with
  | [] => none
  | num :: rest =>
    match ty with
    | .FELT252 => some (.str (48 :: 120 :: natToHexBytes num), rest)
    | .U64 => if num < 2 ^ 64 then some (.num num, rest) else none
    | .U32 => if num < 2 ^ 32 then some (.num num, rest) else none
    | .I32 => if num < 2 ^ 31 then some (.num num, rest) else none
    | .I64 => if num < 2 ^ 63 then some (.num num, rest) else none
    | .BYTEARRAY =>
      -- data_len = usize::try_from(num); 64-bit usize
      if num < 2 ^ 64 then
        let data_len := num
        if data_len + 2 ≤ rest.length then
          let data := rest.take data_len
          match rest.get? data_len, rest.get? (data_len + 1) with
          | some pending_word, some pending_word_len =>
            -- pending_word_len.to_u32().unwrap(); 32 - len underflows (panics)
            -- when len > 32, and the trailing slice indexing panics likewise
            if pending_word_len < 2 ^ 32 ∧ pending_word_len ≤ 32 then
              let trim_len := 32 - pending_word_len
              let v := ((data.map (fun w => (natToBeBytes 32 w).drop 1)).flatten) ++
                (natToBeBytes 32 pending_word).drop trim_len
              if isValidUtf8 v then some (.str v, rest.drop (data_len + 2))
              else none
            else none
          | _, _ => none
        else none
      else none
    | .BOOL =>
      if num = 1 then some (.bool true, rest)
      else if num = 0 then some (.bool false, rest)
      else none

/-- `serialize_cairo_serde` (`cairo-proto-serde/src/lib.rs:118-174`): JSON to
felt sequence at a schema type.  The Rust function recurses through by-name
`Message` references, so the embedding carries a fuel parameter decremented at
each level of recursion; `none` covers both fuel exhaustion (the Rust code
diverges on cyclic schemas) and the Rust panics. -/
def serialize_cairo_serde (config : Configuration) (fuel : Nat)
    (ty : FieldType) (value : Json) : Option (List Nat) :=
  match fuel with
  | 0 => none
  | fuel + 1 =>
    match ty with
    | .primitive p => serialize_primitive p value
    | .message message_ty =>
      match mapGet config.messages message_ty with
      | none => none
      | some message_config =>
        match value.asObj with
        | none => none
        | some kvs =>
          message_config.foldl
            (fun acc field =>
              match acc with
              | none => none
              | some out =>
                match jsonGet kvs field.name with
                | some field_value =>
                  (serialize_cairo_serde config fuel field.ty field_value).map
                    (fun r => out ++ r)
                | none =>
                  -- Try without the "felt252_" prefix
                  match jsonGet kvs (trimFelt252 field.name) with
                  | some field_value =>
                    (serialize_cairo_serde config fuel field.ty field_value).map
                      (fun r => out ++ r)
                  | none => none)
            (some [])
    | .enumeration _ => serialize_primitive .I32 value
    | .option inner_ty =>
      match value with
      | .null => serialize_primitive .U64 (.num 1)
      | _ =>
        match serialize_primitive .U64 (.num 0) with
        | none => none
        | some flag =>
          (serialize_cairo_serde config fuel inner_ty value).map
            (fun r => flag ++ r)
    | .array value_ty =>
      match value.asArr with
      | none => none
      | some elems =>
        match serialize_primitive .U64 (.num elems.length) with
        | none => none
        | some len_prefix =>
          elems.foldl
            (fun acc element =>
              match acc with
              | none => none
              | some out =>
                match value_ty with
                | .primitive .FELT252 =>
                  (serialize_primitive .FELT252 element).map (fun r => out ++ r)
                | _ =>
                  (serialize_cairo_serde config fuel value_ty element).map
                    (fun r => out ++ r))
            (some len_prefix)

/-- `deserialize_cairo_serde` (`cairo-proto-serde/src/lib.rs:176-220`): felt
sequence to JSON at a schema type, returning the value and the remaining
slice; fuel as in `serialize_cairo_serde`.  Message fields accumulate into a
JSON object in declaration order. -/
def deserialize_cairo_serde (config : Configuration) (fuel : Nat)
    (ty : FieldType) (value : List Nat) : Option (Json × List Nat) :=
  match fuel with
  | 0 => none
  | fuel + 1 =>
    match ty with
    | .primitive p => deserialize_primitive p value
    | .message message_ty =>
      match mapGet config.messages message_ty with
      | none => none
      | some message_config =>
        (message_config.foldl
          (fun acc field =>
            match acc with
            | none => none
            | some (kvs, s) =>
              (deserialize_cairo_serde config fuel field.ty s).map
                (fun (vs : Json × List Nat) => (kvs ++ [(field.name, vs.1)], vs.2)))
          (some ([], value))).map
          (fun r => (Json.obj r.1, r.2))
    | .enumeration _ => deserialize_primitive .I32 value
    | .option inner_ty =>
      match deserialize_primitive .U64 value with
      | none => none
      | some (idx, s) =>
        if jsonEqZero idx then deserialize_cairo_serde config fuel inner_ty s
        else some (.null, s)
    | .array value_ty =>
      match deserialize_primitive .U64 value with
      | none => none
      | some (lenJ, s) =>
        match lenJ.asU64 with
        | none => none
        | some len =>
          ((List.range len).foldl
            (fun acc _ =>
              match acc with
              | none => none
              | some (vs, s) =>
                (match value_ty with
                 | .primitive .FELT252 => deserialize_primitive .FELT252 s
                 | _ => deserialize_cairo_serde config fuel value_ty s).map
                  (fun (r : Json × List Nat) => (vs ++ [r.1], r.2)))
            (some ([], s))).map
            (fun r => (Json.arr r.1, r.2))

/-- A VM memory cell address: `(segment_index, offset)` (`Relocatable`). -/
structure Relocatable where
  segment_index : Nat
  offset : Nat
  deriving Repr, BEq, DecidableEq

/-- A VM memory value: integer (felt) or relocatable (`MaybeRelocatable`). -/
inductive MaybeRelocatable where
  | int (n : Nat) : MaybeRelocatable
  | rel (r : Relocatable) : MaybeRelocatable
  deriving Repr, BEq, DecidableEq

/-- The VM state visible to the interceptor: a count of allocated segments and
the written cells.  `add_memory_segment` hands out segment indices in order;
`insert_value` may not overwrite a cell with a different value. -/
structure Vm where
  num_segments : Nat
  mem : List (Relocatable × MaybeRelocatable)
  deriving Repr

/-- The value of a memory cell, if written. -/
def memLookup (vm : Vm) (a : Relocatable) : Option MaybeRelocatable :=
  (vm.mem.find? (fun c => c.1 = a)).map (·.2)

/-- `VirtualMachine::add_memory_segment`: allocate a fresh segment, returning
its base pointer (`MemBuffer::new_segment` wraps the result). -/
def addMemorySegment (vm : Vm) : Relocatable × Vm :=
  (⟨vm.num_segments, 0⟩, { vm with num_segments := vm.num_segments + 1 })

/-- `VirtualMachine::insert_value`: write a cell, failing (as a
`MemoryError`) when the cell already holds a different value. -/
def insertValue (vm : Vm) (a : Relocatable) (v : MaybeRelocatable) :
    Except String Vm :=
  match memLookup vm a with
  | some w => if w = v then .ok vm else .error "Memory error: inconsistent write"
  | none => .ok { vm with mem := (a, v) :: vm.mem }

/-- `MemBuffer::write_data`: write values at successive offsets starting at
`ptr`, advancing the pointer past the end. -/
def writeData (vm : Vm) (ptr : Relocatable) (data : List MaybeRelocatable) :
    Except String Vm :=
  match data with
  | [] => .ok vm
  | v :: rest =>
    match insertValue vm ptr v with
    | .error e => .error e
    | .ok vm' => writeData vm' ⟨ptr.segment_index, ptr.offset + 1⟩ rest

/-- `services.iter().find_map(|(_, methods)| methods.methods.get(selector))`
(`rpc_hint_processor.rs:72-76`). -/
def findMethod (config : Configuration) (selector : String) :
    Option MethodDeclaration :=
  config.services.findSome? (fun s => mapGet s.2.methods selector)

/-- `Rpc1HintProcessor::execute_cheatcode`
(`rpc_hint_processor.rs:50-320`, synchronous branch), with the input span
already read from memory (`vm_get_range`) and the HTTP exchange abstracted by
the `response` JSON the server returned.  Mirrors the source's order: allocate
the result segment, resolve the selector to a method, require a server config,
deserialize the inputs (the leftover slice is dropped), require an object
response, serialize it, write the felts into the fresh segment and store the
segment's start and end pointers in the caller's two output cells. -/
def execute_cheatcode (config : Configuration) (selector : String)
    (inputs : List Nat) (response : Json)
    (output_start output_end : Relocatable) (vm : Vm) (fuel : Nat) :
    Except String Vm :=
  let alloc := addMemorySegment vm
  let res_segment_start := alloc.1
  let vm1 := alloc.2
  match findMethod config selector with
  | none => .error "Unknown cheatcode selector"
  | some configuration =>
    match mapGet config.servers_config selector with
    | none => .error "No server URL configured for selector"
    | some _server_config =>
      match deserialize_cairo_serde config fuel configuration.input inputs with
      | none => .error "deserialize panicked"
      | some _data =>
        -- sync mode: the response must be a JSON object, used directly
        if response.isObject then
          match serialize_cairo_serde config fuel configuration.output response with
          | none => .error "serialize panicked"
          | some data =>
            match writeData vm1 res_segment_start (data.map .int) with
            | .error e => .error e
            | .ok vm2 =>
              let res_segment_end : Relocatable :=
                ⟨res_segment_start.segment_index,
                 res_segment_start.offset + data.length⟩
              match insertValue vm2 output_start (.rel res_segment_start) with
              | .error e => .error e
              | .ok vm3 =>
                match insertValue vm3 output_end (.rel res_segment_end) with
                | .error e => .error e
                | .ok vm4 => .ok vm4
        else .error "Unexpected response format. Expected an object"

/-- The default polling parameters built inline in `execute_cheatcode`
(`rpc_hint_processor.rs:113-118`). -/
def default_polling_config : PollingConfig :=
  { max_attempts := 30, polling_interval := 2, request_timeout := 10,
    overall_timeout := 60 }

/-- `server_config.polling_config.as_ref().unwrap_or(&default_polling_config)`
(`rpc_hint_processor.rs:120-123`). -/
def effectivePollingConfig (pc : Option PollingConfig) : PollingConfig :=
  pc.getD default_polling_config

/-- The observable environment of one polling session: for each attempt
index, the elapsed wall-clock time in nanoseconds measured at the check
before that poll (`start_time.elapsed()`), and the parsed JSON body of that
attempt's status response. -/
structure PollEnv where
  elapsedNanos : Nat → Nat
  status : Nat → Json

/-- One status response test: `status_json.get("status") == Some("completed")`
and then the `result` field, if present (`rpc_hint_processor.rs:221-222`). -/
def completedResult (status_json : Json) : Option Json :=
  match status_json with
  | .obj kvs =>
    match jsonGet kvs "status" with
    | some (.str s) =>
      -- "completed" as UTF-8 bytes
      if s = [99, 111, 109, 112, 108, 101, 116, 101, 100] then
        jsonGet kvs "result"
      else none
    | _ => none
  | _ => none

/-- The polling loop of `execute_cheatcode` (`rpc_hint_processor.rs:172-260`):
before each poll, time out when `attempt >= max_attempts` or when the elapsed
time strictly exceeds `overall_timeout` seconds; otherwise fetch the status
and finish only on a `completed` status carrying a `result`. -/
def pollLoop (pc : PollingConfig) (env : PollEnv) (attempt : Nat) :
    Except String Json :=
  if attempt ≥ pc.max_attempts ∨
      env.elapsedNanos attempt > pc.overall_timeout * 1000000000 then
    .error "Polling timed out"
  else
    match completedResult (env.status attempt) with
    | some output => .ok output
    | none => pollLoop pc env (attempt + 1)
  termination_by pc.max_attempts - attempt
  decreasing_by
    rename_i h
    rw [not_or] at h
    omega

/-- `is_equal_vec_felt` (`cairo-lang-hints-test-runner/src/lib.rs:286-289`):
despite its name, it returns whether the two canonical-value vectors are NOT
equal (`!=`). -/
def is_equal_vec_felt (a b : List Nat) : Bool := a ≠ b

/-- A test's expected outcome (`TestExpectation` / `PanicExpectation`). -/
inductive TestExpectation where
  | success : TestExpectation
  | panicsExact (e : List Nat) : TestExpectation
  | panicsAny : TestExpectation
  deriving Repr, BEq, DecidableEq

/-- The outcome of `run_1` for one test, as matched in `run_tests`. -/
inductive RunOutcome where
  | ok : RunOutcome
  | runPanic (data : List Nat) : RunOutcome
  | otherError : RunOutcome
  deriving Repr, BEq, DecidableEq

/-- `RunResultValue`. -/
inductive RunResultValue where
  | success (felts : List Nat) : RunResultValue
  | panic (felts : List Nat) : RunResultValue
  deriving Repr, BEq, DecidableEq

/-- `TestStatus`. -/
inductive TestStatus where
  | success : TestStatus
  | fail (r : RunResultValue) : TestStatus
  deriving Repr, BEq, DecidableEq

/-- The per-test status computation of `run_tests`
(`cairo-lang-hints-test-runner/src/lib.rs:331-354`): `none` models the
`panic!("Error!")` branch on non-panic errors. -/
def testStatusOf (r : RunOutcome) (expectation : TestExpectation) :
    Option TestStatus :=
  match r with
  | .ok =>
    match expectation with
    | .success => some .success
    | .panicsExact _ | .panicsAny => some (.fail (.panic [0]))
  | .runPanic panic_data =>
    match expectation with
    | .success => some (.fail (.panic panic_data))
    | .panicsExact expected =>
      if ¬ is_equal_vec_felt panic_data expected then
        some (.fail (.panic panic_data))
      else some .success
    | .panicsAny => some .success
  | .otherError => none

/-- Proto scalar and composite wire types (`field_descriptor_proto::Type`). -/
inductive ProtoType where
  | float | double | uint32 | fixed32 | uint64 | fixed64
  | int32 | sfixed32 | sint32 | int64 | sfixed64 | sint64
  | boolTy | stringTy | bytes | group | message | enumeration
  deriving Repr, BEq, DecidableEq

/-- The parts of a `FieldDescriptorProto` that `resolve_type` consults. -/
structure FieldDescriptorProto where
  name : String
  ptype : ProtoType
  type_name : String
  deriving Repr, BEq

/-- `CodeGenerator::resolve_type` (`code_generator.rs:773-787`): the Cairo
type for a proto field.  `resolveIdent` stands for the surrounding
generator's `resolve_ident` method, consulted only for message, group and
enum references; `error` models the fatal `panic!` on floating-point types. -/
def resolve_type (resolveIdent : String → String)
    (field : FieldDescriptorProto) : Except String String :=
  match field.ptype with
  | .float => .error "Float type not supported"
  | .double => .error "Double type not supported"
  | .uint32 | .fixed32 => .ok "u32"
  | .uint64 | .fixed64 => .ok "u64"
  | .int32 | .sfixed32 | .sint32 => .ok "i32"
  | .int64 | .sfixed64 | .sint64 => .ok "i64"
  | .boolTy => .ok "bool"
  | .stringTy => .ok "ByteArray"
  | .bytes => .ok "ByteArray"
  | .group | .message | .enumeration => .ok (resolveIdent field.type_name)

/-- A configuration with empty maps, for claims independent of the schema. -/
def emptyConfig : Configuration :=
  { enums := [], messages := [], services := [], servers_config := [] }

/-- The `SqrtOracle` shape from the repository's own tests: method `sqrt`
taking a `U64` and returning message `Response { n: U64 }`, with a server
registered for the selector. -/
def sqrtConfig : Configuration :=
  { enums := [],
    messages := [("Response", [⟨"n", .primitive .U64⟩])],
    services :=
      [("SqrtOracle", ⟨[("sqrt", ⟨.primitive .U64, .message "Response"⟩)]⟩)],
    servers_config := [("sqrt", ⟨"http://127.0.0.1:3000", none, none⟩)] }

/-- A polling session whose elapsed clock reads exactly `overall_timeout`
(60 s, in nanoseconds) at every check and whose first status response is
already `{"status":"completed","result":{}}`. -/
def envC7 : PollEnv :=
  { elapsedNanos := fun _ => 60 * 1000000000,
    status := fun _ =>
      .obj [("status", .str [99, 111, 109, 112, 108, 101, 116, 101, 100]),
            ("result", .obj [])] }

/-- C1: the codec round-trip law fails on negative signed integers: at type
`Array<I32>`, the JSON array `[1,-2,3]` serialises to `[3, 1, P-2, 3]` as the
spec says, but deserialising that sequence panics (models
`i32::try_from(P-2)` failing on the canonical nonnegative value) instead of
returning `[1,-2,3]`. -/
theorem C1_roundtrip_fails_on_negative_i32 :
    serialize_cairo_serde emptyConfig 2 (.array (.primitive .I32))
        (.arr [.num 1, .num (-2), .num 3]) =
      some [3, 1, STARK_PRIME - 2, 3] ∧
    deserialize_cairo_serde emptyConfig 2 (.array (.primitive .I32))
        [3, 1, STARK_PRIME - 2, 3] = none :=
  ⟨rfl, rfl⟩

/-- C3: the test runner's panic-data comparison is inverted: a panicking test
whose data equals the `Panics(Exact(..))` expectation is reported as failed,
and one whose data differs is reported as passed (`is_equal_vec_felt`
computes inequality and its caller negates it). -/
theorem C3_panic_equality_inverted :
    testStatusOf (.runPanic [42]) (.panicsExact [42]) =
      some (.fail (.panic [42])) ∧
    testStatusOf (.runPanic [1]) (.panicsExact [2]) = some .success :=
  ⟨rfl, rfl⟩

/-- C6 counterexample: a proto `string` field whose name begins with
`felt252_` is still mapped to `ByteArray`, not to a felt252 type; the
claimed name-based rule does not exist in `resolve_type`. -/
theorem C6_counterexample :
    resolve_type (fun s => s) ⟨"felt252_name", .stringTy, ""⟩ =
      .ok "ByteArray" ∧
    ("ByteArray" : String) ≠ "felt252" :=
  ⟨rfl, by decide⟩

/-- C6 (amended): the generator maps every proto `string` field to
`ByteArray` regardless of its name, and rejects `float` and `double` fields
with a fatal error. -/
theorem C6_string_to_bytearray_floats_fatal :
    ∀ (resolveIdent : String → String) (n t : String),
      resolve_type resolveIdent ⟨n, .stringTy, t⟩ = .ok "ByteArray" ∧
      resolve_type resolveIdent ⟨n, .float, t⟩ =
        .error "Float type not supported" ∧
      resolve_type resolveIdent ⟨n, .double, t⟩ =
        .error "Double type not supported" :=
  fun _ _ _ => ⟨rfl, rfl, rfl⟩

/-- C8: BOOL deserialisation maps a leading felt `0` to JSON `false`, `1` to
JSON `true`, and fails (a decode error) on every other felt value. -/
theorem C8_bool_deserialize (f : Nat) (rest : List Nat) :
    (f = 0 →
      deserialize_primitive .BOOL (f :: rest) = some (.bool false, rest)) ∧
    (f = 1 →
      deserialize_primitive .BOOL (f :: rest) = some (.bool true, rest)) ∧
    (f ≠ 0 → f ≠ 1 → deserialize_primitive .BOOL (f :: rest) = none) := by
  refine ⟨fun h0 => ?_, fun h1 => ?_, fun h0 h1 => ?_⟩
  · subst h0; rfl
  · subst h1; rfl
  · simp only [deserialize_primitive]
    rw [if_neg h1, if_neg h0]

/-- Witness for C8 at the felts 0, 1 and 2. -/
theorem C8_bool_deserialize_witness :
    deserialize_primitive .BOOL [0] = some (.bool false, []) ∧
    deserialize_primitive .BOOL [1] = some (.bool true, []) ∧
    deserialize_primitive .BOOL [2] = none :=
  ⟨(C8_bool_deserialize 0 []).1 rfl, (C8_bool_deserialize 1 []).2.1 rfl,
   (C8_bool_deserialize 2 []).2.2 (by decide) (by decide)⟩

/-- C9 counterexample: an Option flag of `2^64` (nonzero) does not yield JSON
`null`; the flag is deserialised as a `U64`, whose conversion panics on
values outside `u64` range. -/
theorem C9_counterexample :
    deserialize_cairo_serde emptyConfig 2 (.option (.primitive .U64))
      [2 ^ 64] = none ∧
    (2 ^ 64 : Nat) ≠ 0 :=
  ⟨rfl, by decide⟩

/-- C9 (amended): every nonzero leading Option flag that fits in a `u64` is
treated as `None` — exactly one felt is consumed and JSON `null` returned,
with no error for flags other than 0 and 1; flags of `2^64` or more fail the
`u64` conversion instead. -/
theorem C9_option_nonzero_flag_is_none (config : Configuration) (fuel : Nat)
    (inner : FieldType) (f : Nat) (rest : List Nat)
    (h0 : 0 < f) (h64 : f < 2 ^ 64) :
    deserialize_cairo_serde config (fuel + 1) (.option inner) (f :: rest) =
      some (.null, rest) := by
  simp only [deserialize_cairo_serde, deserialize_primitive]
  rw [if_pos h64]
  have hne : jsonEqZero (.num f) = false := by
    simp only [jsonEqZero, beq_eq_false_iff_ne, ne_eq, Int.natCast_eq_zero]
    omega
  simp [hne]

/-- Witness for C9 (amended) at flag 5 with a trailing felt. -/
theorem C9_option_nonzero_flag_is_none_witness :
    deserialize_cairo_serde emptyConfig 2 (.option (.primitive .U64)) [5, 9] =
      some (.null, [9]) :=
  C9_option_nonzero_flag_is_none emptyConfig 1 (.primitive .U64) 5 [9]
    (by decide) (by decide)

/-- C10: `Enum(name)` values travel as bare `I32` felts with no schema
lookup: any felt whose canonical value fits in an `i32` deserialises to that
JSON number whatever the configuration's enums map contains, and any in-range
`i32` JSON number serialises, undeclared wire numbers included. -/
theorem C10_enumeration_unchecked :
    (∀ (config : Configuration) (fuel : Nat) (name : String) (f : Nat)
        (rest : List Nat), f < 2 ^ 31 →
      deserialize_cairo_serde config (fuel + 1) (.enumeration name)
          (f :: rest) =
        some (.num f, rest)) ∧
    (∀ (config : Configuration) (fuel : Nat) (name : String) (n : Int),
      -(2 ^ 31) ≤ n → n < 2 ^ 31 →
      serialize_cairo_serde config (fuel + 1) (.enumeration name) (.num n) =
        some [feltOfInt n]) := by
  constructor
  · intro config fuel name f rest h
    show deserialize_primitive .I32 (f :: rest) = some (.num f, rest)
    simp only [deserialize_primitive]
    rw [if_pos h]
  · intro config fuel name n h1 h2
    show serialize_primitive .I32 (.num n) = some [feltOfInt n]
    simp only [serialize_primitive, Json.asI64]
    rw [if_pos (by constructor <;> omega)]
    rfl

/-- Witness for C10: an undeclared wire number 9999 deserialises under an
enum name absent from the (empty) schema, and `-3` serialises. -/
theorem C10_enumeration_unchecked_witness :
    deserialize_cairo_serde emptyConfig 1 (.enumeration "Color") [9999] =
      some (.num 9999, []) ∧
    serialize_cairo_serde emptyConfig 1 (.enumeration "Color") (.num (-3)) =
      some [feltOfInt (-3)] :=
  ⟨C10_enumeration_unchecked.1 emptyConfig 0 "Color" 9999 [] (by decide),
   C10_enumeration_unchecked.2 emptyConfig 0 "Color" (-3) (by decide)
     (by decide)⟩

/-- C4 counterexample: a cheat-code invocation whose input span holds a
trailing felt beyond the method's input type still completes successfully;
no full-consumption check (`InputLeftover`) exists in `execute_cheatcode`. -/
theorem C4_counterexample :
    (execute_cheatcode sqrtConfig "sqrt" [42, 99] (.obj [("n", .num 7)])
        ⟨0, 0⟩ ⟨0, 1⟩ ⟨1, []⟩ 3).isOk = true ∧
    deserialize_cairo_serde sqrtConfig 3 (.primitive .U64) [42, 99] =
      some (.num 42, [99]) :=
  ⟨rfl, rfl⟩

/-- C4 (amended): after deserialising the input span under the method's input
type the interceptor discards the remaining slice without any check: two
invocations whose input spans deserialise to the same value behave
identically, however many trailing felts remain. -/
theorem C4_no_leftover_check (config : Configuration) (selector : String)
    (response : Json) (oS oE : Relocatable) (vm : Vm) (fuel : Nat)
    (inputs1 inputs2 : List Nat) (m : MethodDeclaration) (d : Json)
    (l1 l2 : List Nat)
    (hm : findMethod config selector = some m)
    (h1 : deserialize_cairo_serde config fuel m.input inputs1 = some (d, l1))
    (h2 : deserialize_cairo_serde config fuel m.input inputs2 = some (d, l2)) :
    execute_cheatcode config selector inputs1 response oS oE vm fuel =
      execute_cheatcode config selector inputs2 response oS oE vm fuel := by
  simp only [execute_cheatcode, hm, h1, h2]

/-- Witness for C4 (amended): inputs `[42]` and `[42, 99]` drive the sqrt
cheat-code to the same result. -/
theorem C4_no_leftover_check_witness :
    execute_cheatcode sqrtConfig "sqrt" [42] (.obj [("n", .num 7)])
        ⟨0, 0⟩ ⟨0, 1⟩ ⟨1, []⟩ 3 =
      execute_cheatcode sqrtConfig "sqrt" [42, 99] (.obj [("n", .num 7)])
        ⟨0, 0⟩ ⟨0, 1⟩ ⟨1, []⟩ 3 :=
  C4_no_leftover_check sqrtConfig "sqrt" (.obj [("n", .num 7)]) ⟨0, 0⟩ ⟨0, 1⟩
    ⟨1, []⟩ 3 [42] [42, 99] ⟨.primitive .U64, .message "Response"⟩ (.num 42)
    [] [99] rfl rfl rfl

/-- C7 counterexample: at the check before a poll, an elapsed time exactly
equal to `overall_timeout` does not time out — the code compares with strict
`>` — so a session whose clock reads exactly 60 s still polls and can
succeed, where the claim (`elapsed ≥ overall_timeout` fails) demands
`PollingTimeout`. -/
theorem C7_counterexample :
    pollLoop default_polling_config envC7 0 = .ok (.obj []) ∧
    envC7.elapsedNanos 0 =
      default_polling_config.overall_timeout * 1000000000 := by
  constructor
  · rw [pollLoop]
    rfl
  · rfl

/-- C7 (amended): the polling loop fails with `PollingTimeout` when, checked
before each poll, `attempt ≥ max_attempts` or the elapsed time strictly
exceeds `overall_timeout`; and when `polling_config` is omitted the defaults
`max_attempts=30, polling_interval=2, request_timeout=10, overall_timeout=60`
are used. -/
theorem C7_polling_timeout_strict :
    (∀ (pc : PollingConfig) (env : PollEnv) (attempt : Nat),
      attempt ≥ pc.max_attempts ∨
        env.elapsedNanos attempt > pc.overall_timeout * 1000000000 →
      pollLoop pc env attempt = .error "Polling timed out") ∧
    effectivePollingConfig none = default_polling_config ∧
    default_polling_config =
      { max_attempts := 30, polling_interval := 2, request_timeout := 10,
        overall_timeout := 60 } := by
  refine ⟨?_, rfl, rfl⟩
  intro pc env attempt h
  rw [pollLoop, if_pos h]

/-- Witness for C7 (amended): attempt 30 under the default configuration
times out at once. -/
theorem C7_polling_timeout_strict_witness :
    pollLoop default_polling_config envC7 30 = .error "Polling timed out" :=
  C7_polling_timeout_strict.1 default_polling_config envC7 30
    (Or.inl (by decide))

theorem feltOfNat_eq_of_lt {n : Nat} (h : n < STARK_PRIME) : feltOfNat n = n :=
  Nat.mod_eq_of_lt h

theorem pow256_31_lt_prime : 256 ^ 31 < STARK_PRIME := by decide

theorem natToBeBytes_zero (m : Nat) : natToBeBytes m 0 = List.replicate m 0 := by
  induction m with
  | zero => rfl
  | succ m ih =>
    rw [natToBeBytes, Nat.zero_div, ih, List.replicate_succ']

theorem beBytesToNat_append_singleton (c : List Nat) (b : Nat) :
    beBytesToNat (c ++ [b]) = 256 * beBytesToNat c + b := by
  simp [beBytesToNat, List.foldl_append, Nat.mul_comm]

theorem beBytesToNat_lt (c : List Nat) (hb : ∀ x ∈ c, x < 256) :
    beBytesToNat c < 256 ^ c.length := by
  induction c using List.reverseRecOn with
  | nil => simp [beBytesToNat]
  | append_singleton c b ih =>
    rw [beBytesToNat_append_singleton]
    have hb' : ∀ x ∈ c, x < 256 := fun x hx => hb x (by simp [hx])
    have hbb : b < 256 := hb b (by simp)
    have := ih hb'
    simp only [List.length_append, List.length_singleton, pow_succ]
    calc 256 * beBytesToNat c + b < 256 * beBytesToNat c + 256 := by omega
    _ = 256 * (beBytesToNat c + 1) := by ring
    _ ≤ 256 * 256 ^ c.length := by
        have : beBytesToNat c + 1 ≤ 256 ^ c.length := this
        exact Nat.mul_le_mul_left _ this
    _ = 256 ^ c.length * 256 := by ring

theorem natToBeBytes_beBytesToNat (c : List Nat) (m : Nat)
    (hb : ∀ x ∈ c, x < 256) :
    natToBeBytes (m + c.length) (beBytesToNat c) = List.replicate m 0 ++ c := by
  induction c using List.reverseRecOn generalizing m with
  | nil => simpa [beBytesToNat] using natToBeBytes_zero m
  | append_singleton c b ih =>
    have hb' : ∀ x ∈ c, x < 256 := fun x hx => hb x (by simp [hx])
    have hbb : b < 256 := hb b (by simp)
    rw [beBytesToNat_append_singleton]
    have hlen : m + (c ++ [b]).length = (m + c.length) + 1 := by
      simp only [List.length_append, List.length_singleton]
      omega
    rw [hlen, natToBeBytes]
    have hdiv : (256 * beBytesToNat c + b) / 256 = beBytesToNat c := by
      omega
    have hmod : (256 * beBytesToNat c + b) % 256 = b := by
      omega
    rw [hdiv, hmod, ih m hb', List.append_assoc]

theorem chunks31_struct : ∀ (n : Nat) (l : List Nat), l.length ≤ n →
    chunks31 l =
      (List.range (l.length / 31)).map (fun i => (l.drop (31 * i)).take 31) ++
      (if l.length % 31 = 0 then []
       else [l.drop (31 * (l.length / 31))]) := by
  intro n
  induction n with
  | zero =>
    intro l hl
    have hnil : l = [] := List.eq_nil_of_length_eq_zero (Nat.le_zero.mp hl)
    subst hnil
    simp [chunks31]
  | succ n ih =>
    intro l hl
    match l with
    | [] => simp [chunks31]
    | a :: rest =>
      rw [chunks31]
      by_cases hle : (a :: rest).length ≤ 31
      · have hdrop : (a :: rest).drop 31 = [] := List.drop_eq_nil_of_le hle
        have htake : (a :: rest).take 31 = a :: rest :=
          List.take_of_length_le hle
        rw [hdrop, htake, chunks31]
        by_cases h31 : (a :: rest).length = 31
        · have hq : (a :: rest).length / 31 = 1 := by omega
          have hr : (a :: rest).length % 31 = 0 := by omega
          rw [hq, hr]
          have hr1 : List.range 1 = [0] := rfl
          simp [hr1, htake]
        · have hlt : (a :: rest).length < 31 := by omega
          have hpos : 0 < (a :: rest).length := by simp
          have hq : (a :: rest).length / 31 = 0 := by omega
          have hr : (a :: rest).length % 31 ≠ 0 := by omega
          rw [hq, if_neg hr]
          simp
      · push_neg at hle
        have hlen : ((a :: rest).drop 31).length = (a :: rest).length - 31 := by
          simp [List.length_drop]
        have hrec := ih ((a :: rest).drop 31) (by
          rw [hlen]
          have := hl
          omega)
        rw [hrec, hlen]
        obtain ⟨q, hq⟩ : ∃ q, (a :: rest).length / 31 = q + 1 :=
          ⟨(a :: rest).length / 31 - 1, by omega⟩
        have hq2 : ((a :: rest).length - 31) / 31 = q := by omega
        have hq3 : ((a :: rest).length - 31) % 31 = (a :: rest).length % 31 := by
          omega
        rw [hq2, hq3, hq, List.range_succ_eq_map, List.map_cons, List.map_map]
        simp only [Nat.mul_zero, List.drop_zero, List.cons_append]
        congr 1
        congr 1
        · apply List.map_congr_left
          intro i _
          simp only [Function.comp_apply, List.drop_drop]
          have harg : ∀ (A B : Nat), A = B →
              ((a :: rest).drop A).take 31 = ((a :: rest).drop B).take 31 := by
            intro A B hAB
            rw [hAB]
          apply harg
          omega
        · by_cases hz : (a :: rest).length % 31 = 0
          · rw [if_pos hz, if_pos hz]
          · rw [if_neg hz, if_neg hz, List.drop_drop]
            have harg : ∀ (A B : Nat), A = B →
                [(a :: rest).drop A] = [(a :: rest).drop B] := by
              intro A B hAB
              rw [hAB]
            apply harg
            omega

theorem two_pow_32_lt_prime : 2 ^ 32 < STARK_PRIME := by decide

theorem feltOfNat_beBytes_eq (c : List Nat) (hb : ∀ x ∈ c, x < 256)
    (hc : c.length ≤ 31) : feltOfNat (beBytesToNat c) = beBytesToNat c := by
  apply feltOfNat_eq_of_lt
  calc beBytesToNat c < 256 ^ c.length := beBytesToNat_lt c hb
  _ ≤ 256 ^ 31 := Nat.pow_le_pow_right (by omega) hc
  _ < STARK_PRIME := pow256_31_lt_prime

theorem flatten_chunk_maps (l : List Nat) : ∀ (k : Nat), 31 * k ≤ l.length →
    ((List.range k).map (fun i => (l.drop (31 * i)).take 31)).flatten =
      l.take (31 * k) := by
  intro k
  induction k with
  | zero => simp
  | succ k ih =>
    intro hk
    rw [List.range_succ, List.map_append, List.flatten_append]
    rw [ih (by omega)]
    have h1 : 31 * (k + 1) = 31 * k + 31 := by ring
    rw [h1, List.take_add]
    simp

theorem serialize_bytearray_shape (bytes : List Nat)
    (hb : ∀ x ∈ bytes, x < 256) (hlen : bytes.length < 2 ^ 32) :
    serialize_primitive .BYTEARRAY (.str bytes) =
      some ((bytes.length / 31) ::
        (List.range (bytes.length / 31)).map
          (fun i => beBytesToNat ((bytes.drop (31 * i)).take 31)) ++
        [beBytesToNat (bytes.drop (31 * (bytes.length / 31))),
         bytes.length % 31]) := by
  have hqle : bytes.length / 31 ≤ bytes.length := Nat.div_le_self _ _
  have h232 := two_pow_32_lt_prime
  have hchunkfelt : ∀ i, feltOfNat (beBytesToNat ((bytes.drop (31 * i)).take 31)) =
      beBytesToNat ((bytes.drop (31 * i)).take 31) := by
    intro i
    apply feltOfNat_beBytes_eq
    · intro x hx
      exact hb x (List.mem_of_mem_drop (List.mem_of_mem_take hx))
    · simp [List.length_take]
  have hpendfelt : feltOfNat (beBytesToNat (bytes.drop (31 * (bytes.length / 31)))) =
      beBytesToNat (bytes.drop (31 * (bytes.length / 31))) := by
    apply feltOfNat_beBytes_eq
    · intro x hx
      exact hb x (List.mem_of_mem_drop hx)
    · rw [List.length_drop]
      omega
  simp only [serialize_primitive, Json.asStr]
  rw [if_pos hlen]
  rw [chunks31_struct bytes.length bytes le_rfl]
  rw [List.map_append, List.map_map]
  have hfq : feltOfNat (bytes.length / 31) = bytes.length / 31 :=
    feltOfNat_eq_of_lt (by omega)
  have hmapeq :
      (List.range (bytes.length / 31)).map
          ((fun c => feltOfNat (beBytesToNat c)) ∘
            (fun i => (bytes.drop (31 * i)).take 31)) =
        (List.range (bytes.length / 31)).map
          (fun i => beBytesToNat ((bytes.drop (31 * i)).take 31)) := by
    apply List.map_congr_left
    intro i _
    simp only [Function.comp_apply]
    exact hchunkfelt i
  have hfz : feltOfNat 0 = 0 := rfl
  have hbz : beBytesToNat [] = 0 := rfl
  by_cases hz : bytes.length % 31 = 0
  · have hdropnil : bytes.drop (31 * (bytes.length / 31)) = [] := by
      apply List.drop_eq_nil_of_le
      omega
    rw [if_pos hz, if_pos hz, hmapeq, hfq, hdropnil, hz, hfz, hbz]
    simp
  · have hfr : feltOfNat (bytes.length % 31) = bytes.length % 31 := by
      apply feltOfNat_eq_of_lt
      have := Nat.mod_lt bytes.length (show 0 < 31 by omega)
      omega
    rw [if_neg hz, if_neg hz, hmapeq, hfq, hfr, List.map_cons]
    rw [hpendfelt]
    simp

theorem deserialize_bytearray_reads (bytes tail : List Nat)
    (hb : ∀ x ∈ bytes, x < 256) (hlen : bytes.length < 2 ^ 32)
    (hutf : isValidUtf8 bytes = true) :
    deserialize_primitive .BYTEARRAY
        ((bytes.length / 31) ::
          (List.range (bytes.length / 31)).map
            (fun i => beBytesToNat ((bytes.drop (31 * i)).take 31)) ++
          [beBytesToNat (bytes.drop (31 * (bytes.length / 31))),
           bytes.length % 31] ++ tail) =
      some (.str bytes, tail) := by
  have hqle : bytes.length / 31 ≤ bytes.length := Nat.div_le_self _ _
  have hrlt : bytes.length % 31 < 31 := Nat.mod_lt _ (by omega)
  have h31q : 31 * (bytes.length / 31) ≤ bytes.length := Nat.mul_div_le _ _
  simp only [List.cons_append, List.append_assoc, List.nil_append,
    deserialize_primitive]
  set W := (List.range (bytes.length / 31)).map
    (fun i => beBytesToNat ((bytes.drop (31 * i)).take 31)) with hWdef
  set p := beBytesToNat (bytes.drop (31 * (bytes.length / 31))) with hpdef
  set r := bytes.length % 31 with hrdef
  have hr31 : r < 31 := hrlt
  have hW : W.length = bytes.length / 31 := by
    rw [hWdef]
    simp
  rw [if_pos (show bytes.length / 31 < 2 ^ 64 by omega)]
  rw [if_pos (show bytes.length / 31 + 2 ≤ (W ++ p :: r :: tail).length by
    simp only [List.length_append, List.length_cons, hW]
    omega)]
  have hget0 : (W ++ p :: r :: tail).get? (bytes.length / 31) = some p := by
    rw [List.get?_append_right (by omega), hW]
    simp
  have hget1 : (W ++ p :: r :: tail).get? (bytes.length / 31 + 1) = some r := by
    rw [List.get?_append_right (by omega), hW]
    simp
  rw [hget0, hget1]
  dsimp only
  rw [if_pos (show r < 2 ^ 32 ∧ r ≤ 32 by omega)]
  rw [List.take_left' hW]
  have hwords : W.map (fun w => (natToBeBytes 32 w).drop 1) =
      (List.range (bytes.length / 31)).map
        (fun i => (bytes.drop (31 * i)).take 31) := by
    rw [hWdef, List.map_map]
    apply List.map_congr_left
    intro i hi
    have hilt : i < bytes.length / 31 := List.mem_range.mp hi
    have hclen : ((bytes.drop (31 * i)).take 31).length = 31 := by
      rw [List.length_take, List.length_drop]
      have h1 : 31 * i + 31 ≤ bytes.length := by
        calc 31 * i + 31 = 31 * (i + 1) := by ring
        _ ≤ 31 * (bytes.length / 31) := by omega
        _ ≤ bytes.length := h31q
      omega
    have hcb : ∀ x ∈ (bytes.drop (31 * i)).take 31, x < 256 := fun x hx =>
      hb x (List.mem_of_mem_drop (List.mem_of_mem_take hx))
    simp only [Function.comp_apply]
    have hpad := natToBeBytes_beBytesToNat ((bytes.drop (31 * i)).take 31) 1 hcb
    rw [hclen] at hpad
    rw [show (32 : Nat) = 1 + 31 from rfl, hpad]
    rfl
  have hpendbytes : (natToBeBytes 32 p).drop (32 - r) =
      bytes.drop (31 * (bytes.length / 31)) := by
    have hplen : (bytes.drop (31 * (bytes.length / 31))).length = r := by
      rw [List.length_drop, hrdef]
      omega
    have hpb : ∀ x ∈ bytes.drop (31 * (bytes.length / 31)), x < 256 :=
      fun x hx => hb x (List.mem_of_mem_drop hx)
    have hpad := natToBeBytes_beBytesToNat
      (bytes.drop (31 * (bytes.length / 31))) (32 - r) hpb
    rw [hplen] at hpad
    rw [hpdef, show (32 : Nat) = 32 - r + r by omega, hpad]
    rw [List.drop_left' (by simp)]
  rw [hwords, hpendbytes, flatten_chunk_maps bytes _ h31q]
  rw [List.take_append_drop]
  rw [if_pos hutf]
  have hdroptail : (W ++ p :: r :: tail).drop (bytes.length / 31 + 2) =
      tail := by
    rw [show W ++ p :: r :: tail = (W ++ [p, r]) ++ tail by simp]
    rw [List.drop_left' (by simp [hW])]
  rw [hdroptail]

/-- A 63-byte ASCII string (63 copies of `'a'`), exercising the byte-array
boundary: two full words plus one pending byte. -/
def c5bytes : List Nat := List.replicate 63 97

/-- C5: BYTEARRAY encoding: for every valid UTF-8 byte string, serialisation
emits `num_full_words = len/31`, then that many felts each packing a 31-byte
big-endian chunk, then a `pending_word` felt holding the `len%31` trailing
bytes right-aligned, then `pending_len = len%31`; when `len%31 = 0` the
pending word is `0` with `pending_len = 0`; and deserialisation consumes
exactly that encoding and reconstitutes exactly
`31 * num_full_words + pending_len = len` bytes, namely the original
string. -/
theorem C5_bytearray_encoding (bytes tail : List Nat)
    (hb : ∀ x ∈ bytes, x < 256) (hlen : bytes.length < 2 ^ 32)
    (hutf : isValidUtf8 bytes = true) :
    serialize_primitive .BYTEARRAY (.str bytes) =
      some ((bytes.length / 31) ::
        (List.range (bytes.length / 31)).map
          (fun i => beBytesToNat ((bytes.drop (31 * i)).take 31)) ++
        [beBytesToNat (bytes.drop (31 * (bytes.length / 31))),
         bytes.length % 31]) ∧
    (∀ i, i < bytes.length / 31 →
      ((bytes.drop (31 * i)).take 31).length = 31) ∧
    (bytes.length % 31 = 0 →
      beBytesToNat (bytes.drop (31 * (bytes.length / 31))) = 0) ∧
    31 * (bytes.length / 31) + bytes.length % 31 = bytes.length ∧
    deserialize_primitive .BYTEARRAY
        ((bytes.length / 31) ::
          (List.range (bytes.length / 31)).map
            (fun i => beBytesToNat ((bytes.drop (31 * i)).take 31)) ++
          [beBytesToNat (bytes.drop (31 * (bytes.length / 31))),
           bytes.length % 31] ++ tail) =
      some (.str bytes, tail) := by
  have h31q : 31 * (bytes.length / 31) ≤ bytes.length := Nat.mul_div_le _ _
  refine ⟨serialize_bytearray_shape bytes hb hlen, ?_, ?_, ?_,
    deserialize_bytearray_reads bytes tail hb hlen hutf⟩
  · intro i hilt
    rw [List.length_take, List.length_drop]
    have h1 : 31 * i + 31 ≤ bytes.length := by
      calc 31 * i + 31 = 31 * (i + 1) := by ring
      _ ≤ 31 * (bytes.length / 31) := by omega
      _ ≤ bytes.length := h31q
    omega
  · intro hz
    have hdropnil : bytes.drop (31 * (bytes.length / 31)) = [] := by
      apply List.drop_eq_nil_of_le
      omega
    rw [hdropnil]
    rfl
  · omega

/-- Witness for C5 at the 63-byte boundary: two full 31-byte words, pending
word `97` (the single trailing byte, right-aligned), pending length 1; the
encoding deserialises back to the original bytes leaving the trailing felt. -/
theorem C5_bytearray_encoding_witness :
    serialize_primitive .BYTEARRAY (.str c5bytes) =
      some [2, beBytesToNat (List.replicate 31 97),
        beBytesToNat (List.replicate 31 97), 97, 1] ∧
    deserialize_primitive .BYTEARRAY
        [2, beBytesToNat (List.replicate 31 97),
         beBytesToNat (List.replicate 31 97), 97, 1, 5] =
      some (.str c5bytes, [5]) := by
  have h := C5_bytearray_encoding c5bytes [5] (by decide) (by decide)
    (by decide)
  exact ⟨h.1, h.2.2.2.2⟩

theorem memLookup_cons_self (n : Nat)
    (mem : List (Relocatable × MaybeRelocatable)) (a : Relocatable)
    (v : MaybeRelocatable) :
    memLookup ⟨n, (a, v) :: mem⟩ a = some v := by
  simp [memLookup, List.find?_cons_of_pos]

theorem memLookup_cons_ne (n : Nat)
    (mem : List (Relocatable × MaybeRelocatable)) (a : Relocatable)
    (v : MaybeRelocatable) (b : Relocatable) (h : b ≠ a) :
    memLookup ⟨n, (a, v) :: mem⟩ b = memLookup ⟨n, mem⟩ b := by
  simp only [memLookup]
  rw [List.find?_cons_of_neg]
  simp only [decide_eq_true_eq]
  exact fun hh => h (hh ▸ rfl)

theorem insertValue_ok {vm : Vm} {a : Relocatable} {v : MaybeRelocatable}
    {vm' : Vm} (h : insertValue vm a v = .ok vm') :
    memLookup vm' a = some v ∧
    vm'.num_segments = vm.num_segments ∧
    (∀ b, b ≠ a → memLookup vm' b = memLookup vm b) ∧
    (∀ c ∈ vm'.mem, c ∈ vm.mem ∨
      (c : Relocatable × MaybeRelocatable).1 = a) := by
  unfold insertValue at h
  split at h
  · rename_i w hcase
    split at h
    · rename_i hwv
      cases h
      subst hwv
      exact ⟨hcase, rfl, fun b _ => rfl, fun c hc => Or.inl hc⟩
    · cases h
  · rename_i hcase
    cases h
    refine ⟨?_, rfl, ?_, ?_⟩
    · cases vm with
      | mk n mem => exact memLookup_cons_self n mem a v
    · intro b hb
      cases vm with
      | mk n mem => exact memLookup_cons_ne n mem a v b hb
    · intro c hc
      rcases List.mem_cons.mp hc with hh | ht
      · right
        rw [hh]
      · exact Or.inl ht

theorem writeData_ok : ∀ (data : List MaybeRelocatable) (vm : Vm) (s o : Nat)
    (vm' : Vm),
    (∀ c ∈ vm.mem, (c : Relocatable × MaybeRelocatable).1.segment_index = s →
      (c : Relocatable × MaybeRelocatable).1.offset < o) →
    writeData vm ⟨s, o⟩ data = .ok vm' →
    vm'.num_segments = vm.num_segments ∧
    (∀ i, i < data.length → memLookup vm' ⟨s, o + i⟩ = data.get? i) ∧
    (∀ b : Relocatable, (b.segment_index = s → b.offset < o) →
      memLookup vm' b = memLookup vm b) ∧
    (∀ c ∈ vm'.mem, c ∈ vm.mem ∨
      ((c : Relocatable × MaybeRelocatable).1.segment_index = s ∧
        o ≤ (c : Relocatable × MaybeRelocatable).1.offset ∧
        (c : Relocatable × MaybeRelocatable).1.offset < o + data.length)) := by
  intro data
  induction data with
  | nil =>
    intro vm s o vm' _ h
    unfold writeData at h
    cases h
    exact ⟨rfl, fun i hi => absurd hi (by simp), fun b _ => rfl,
      fun c hc => Or.inl hc⟩
  | cons v rest ih =>
    intro vm s o vm' hbelow h
    unfold writeData at h
    have hnone : memLookup vm ⟨s, o⟩ = none := by
      cases hcase : memLookup vm ⟨s, o⟩ with
      | none => rfl
      | some w =>
        exfalso
        simp only [memLookup] at hcase
        cases hfind : vm.mem.find? (fun c => c.1 = (⟨s, o⟩ : Relocatable)) with
        | none => rw [hfind] at hcase; cases hcase
        | some c =>
          have hmem := List.mem_of_find?_eq_some hfind
          have hprop := List.find?_some hfind
          simp only [decide_eq_true_eq] at hprop
          have hlt := hbelow c hmem (by rw [hprop])
          rw [hprop] at hlt
          exact Nat.lt_irrefl o hlt
    have hins : insertValue vm ⟨s, o⟩ v =
        .ok { vm with mem := (⟨s, o⟩, v) :: vm.mem } := by
      unfold insertValue
      rw [hnone]
    rw [hins] at h
    have hbelow1 : ∀ c ∈ ({ vm with mem := (⟨s, o⟩, v) :: vm.mem } : Vm).mem,
        (c : Relocatable × MaybeRelocatable).1.segment_index = s →
        (c : Relocatable × MaybeRelocatable).1.offset < o + 1 := by
      intro c hc hs
      rcases List.mem_cons.mp hc with hh | ht
      · rw [hh]
        exact Nat.lt_succ_self o
      · exact Nat.lt_succ_of_lt (hbelow c ht hs)
    obtain ⟨ih1, ih2, ih3, ih4⟩ :=
      ih { vm with mem := (⟨s, o⟩, v) :: vm.mem } s (o + 1) vm' hbelow1 h
    refine ⟨ih1, ?_, ?_, ?_⟩
    · intro i hi
      cases i with
      | zero =>
        have hpres := ih3 ⟨s, o⟩ (fun _ => Nat.lt_succ_self o)
        rw [Nat.add_zero, hpres]
        cases vm with
        | mk n mem => exact memLookup_cons_self n mem ⟨s, o⟩ v
      | succ j =>
        have hj : j < rest.length := by
          simp only [List.length_cons] at hi
          omega
        have hs := ih2 j hj
        have harg : o + (j + 1) = o + 1 + j := by omega
        rw [harg, hs]
        rfl
    · intro b hb
      have hbne : b ≠ ⟨s, o⟩ := by
        intro hbeq
        subst hbeq
        exact Nat.lt_irrefl o (hb rfl)
      have h1 := ih3 b (fun hs => Nat.lt_succ_of_lt (hb hs))
      rw [h1]
      cases vm with
      | mk n mem => exact memLookup_cons_ne n mem ⟨s, o⟩ v b hbne
    · intro c hc
      rcases ih4 c hc with hmem | hrange
      · rcases List.mem_cons.mp hmem with hh | ht
        · right
          rw [hh]
          refine ⟨rfl, Nat.le_refl o, ?_⟩
          show o < o + (v :: rest).length
          simp only [List.length_cons]
          omega
        · exact Or.inl ht
      · right
        obtain ⟨h1, h2, h3⟩ := hrange
        refine ⟨h1, by omega, ?_⟩
        simp only [List.length_cons]
        omega

/-- C2: after a cheat-code completes successfully, the serialised response
has been written element-wise into a freshly allocated segment (index equal
to the segment count before the call, never previously used, and not reused
by later cheat-codes since the count grows), the caller's two output cells
hold relocatables into that segment at offsets 0 and `|data|`, and
`output_end - output_start` equals the length of the serialised response. -/
theorem C2_output_segment (config : Configuration) (selector : String)
    (inputs : List Nat) (response : Json)
    (output_start output_end : Relocatable) (vm vm' : Vm) (fuel : Nat)
    (Hinv : ∀ c ∈ vm.mem,
      (c : Relocatable × MaybeRelocatable).1.segment_index < vm.num_segments)
    (HoS : output_start.segment_index < vm.num_segments)
    (HoE : output_end.segment_index < vm.num_segments)
    (Hne : output_start ≠ output_end)
    (Hok : execute_cheatcode config selector inputs response output_start
      output_end vm fuel = .ok vm') :
    ∃ m data,
      findMethod config selector = some m ∧
      serialize_cairo_serde config fuel m.output response = some data ∧
      vm'.num_segments = vm.num_segments + 1 ∧
      (∀ c ∈ vm.mem,
        (c : Relocatable × MaybeRelocatable).1.segment_index ≠
          vm.num_segments) ∧
      (∀ i, i < data.length →
        memLookup vm' ⟨vm.num_segments, i⟩ =
          (data.get? i).map MaybeRelocatable.int) ∧
      memLookup vm' output_start = some (.rel ⟨vm.num_segments, 0⟩) ∧
      memLookup vm' output_end =
        some (.rel ⟨vm.num_segments, data.length⟩) ∧
      (⟨vm.num_segments, data.length⟩ : Relocatable).offset -
        (⟨vm.num_segments, 0⟩ : Relocatable).offset = data.length ∧
      (∀ c ∈ vm'.mem,
        (c : Relocatable × MaybeRelocatable).1.segment_index <
          vm'.num_segments) := by
  simp only [execute_cheatcode, addMemorySegment] at Hok
  split at Hok
  · cases Hok
  · rename_i m hfind
    split at Hok
    · cases Hok
    · rename_i sc hsrv
      split at Hok
      · cases Hok
      · rename_i dl hdes
        split at Hok
        case isFalse => cases Hok
        case isTrue hobj =>
          split at Hok
          · cases Hok
          · rename_i data hser
            split at Hok
            · cases Hok
            · rename_i vm2 hwrite
              split at Hok
              · cases Hok
              · rename_i vm3 hins1
                split at Hok
                · cases Hok
                · rename_i vm4 hins2
                  cases Hok
                  obtain ⟨hW1, hW2, hW3, hW4⟩ := writeData_ok
                    (data.map MaybeRelocatable.int)
                    { vm with num_segments := vm.num_segments + 1 }
                    vm.num_segments 0 vm2
                    (fun c hc hs => absurd hs (Nat.ne_of_lt (Hinv c hc)))
                    hwrite
                  obtain ⟨hI1a, hI1b, hI1c, hI1d⟩ := insertValue_ok hins1
                  obtain ⟨hI2a, hI2b, hI2c, hI2d⟩ := insertValue_ok hins2
                  refine ⟨m, data, hfind, hser, ?_, ?_, ?_, ?_, ?_, ?_, ?_⟩
                  · rw [hI2b, hI1b, hW1]
                  · exact fun c hc => Nat.ne_of_lt (Hinv c hc)
                  · intro i hi
                    have hneE : (⟨vm.num_segments, i⟩ : Relocatable) ≠
                        output_end := by
                      intro heq
                      rw [← heq] at HoE
                      exact Nat.lt_irrefl _ HoE
                    have hneS : (⟨vm.num_segments, i⟩ : Relocatable) ≠
                        output_start := by
                      intro heq
                      rw [← heq] at HoS
                      exact Nat.lt_irrefl _ HoS
                    rw [hI2c _ hneE, hI1c _ hneS]
                    have hi' : i < (data.map MaybeRelocatable.int).length := by
                      rw [List.length_map]
                      exact hi
                    have := hW2 i hi'
                    rw [Nat.zero_add] at this
                    rw [this, List.get?_map]
                  · rw [hI2c _ Hne, hI1a]
                  · rw [hI2a, Nat.zero_add]
                  · rfl
                  · intro c hc
                    have hnum : vm'.num_segments = vm.num_segments + 1 := by
                      rw [hI2b, hI1b, hW1]
                    rw [hnum]
                    rcases hI2d c hc with hc3 | hcE
                    · rcases hI1d c hc3 with hc2 | hcS
                      · rcases hW4 c hc2 with hc1 | hcN
                        · exact Nat.lt_succ_of_lt (Hinv c hc1)
                        · rw [hcN.1]
                          exact Nat.lt_succ_self _
                      · rw [hcS]
                        exact Nat.lt_succ_of_lt HoS
                    · rw [hcE]
                      exact Nat.lt_succ_of_lt HoE

/-- The VM before the witness cheat-code: one existing (empty) segment. -/
def vm0C2 : Vm := { num_segments := 1, mem := [] }

/-- The VM after the witness cheat-code, as computed by
`execute_cheatcode`. -/
def vm1C2 : Vm :=
  { num_segments := 2,
    mem := [(⟨0, 1⟩, .rel ⟨1, 1⟩), (⟨0, 0⟩, .rel ⟨1, 0⟩), (⟨1, 0⟩, .int 7)] }

/-- Witness for C2: the sqrt cheat-code on input `[42]` with response
`{"n":7}` writes `[7]` into fresh segment 1 and stores its bounds in the two
output cells. -/
theorem C2_output_segment_witness :
    ∃ m data,
      findMethod sqrtConfig "sqrt" = some m ∧
      serialize_cairo_serde sqrtConfig 3 m.output (.obj [("n", .num 7)]) =
        some data ∧
      vm1C2.num_segments = vm0C2.num_segments + 1 ∧
      (∀ c ∈ vm0C2.mem,
        (c : Relocatable × MaybeRelocatable).1.segment_index ≠
          vm0C2.num_segments) ∧
      (∀ i, i < data.length →
        memLookup vm1C2 ⟨vm0C2.num_segments, i⟩ =
          (data.get? i).map MaybeRelocatable.int) ∧
      memLookup vm1C2 ⟨0, 0⟩ = some (.rel ⟨vm0C2.num_segments, 0⟩) ∧
      memLookup vm1C2 ⟨0, 1⟩ =
        some (.rel ⟨vm0C2.num_segments, data.length⟩) ∧
      (⟨vm0C2.num_segments, data.length⟩ : Relocatable).offset -
        (⟨vm0C2.num_segments, 0⟩ : Relocatable).offset = data.length ∧
      (∀ c ∈ vm1C2.mem,
        (c : Relocatable × MaybeRelocatable).1.segment_index <
          vm1C2.num_segments) :=
  C2_output_segment sqrtConfig "sqrt" [42] (.obj [("n", .num 7)]) ⟨0, 0⟩
    ⟨0, 1⟩ vm0C2 vm1C2 3 (fun c hc => absurd hc (List.not_mem_nil c))
    (by decide) (by decide) (by decide) rfl
